import Mathlib

/-
Verification of the command-chain execution engine and session management of
the Smart-CLI repository (src/terminal/enhanced_command_executor.py and
src/terminal/interactive_session_handler.py).

Strings are embedded as lists of characters. Python primitives used by the
code (str.strip, str.split, substring containment, str.endswith, f-strings,
str(n)) are given executable models below, and the executor methods are
translated function by function. OS interactions (subprocess.run, Popen
pipelines, background spawns) are abstracted as an oracle (Env) indexed by a
tick counter so that distinct invocations may behave differently.
-/

namespace SmartCLI

/-- Python strings, embedded as lists of characters. -/
abbrev Str := List Char

/-- The whitespace set of Python's str.strip (space, tab, newline, carriage
return, vertical tab, form feed). -/
def isSpaceChar (c : Char) : Bool :=
  c = ' ' || c = '\t' || c = '\n' || c = '\r' || c = '\x0b' || c = '\x0c'

/-- Python str.strip(): remove leading and trailing whitespace. -/
def strip (l : Str) : Str :=
  ((l.dropWhile isSpaceChar).reverse.dropWhile isSpaceChar).reverse

/-- Worker for splitOn: scans the list left to right; when the separator is a
prefix of the remainder, emits the accumulated piece and skips the rest of the
separator (skip counter), matching Python str.split's leftmost,
non-overlapping semantics. -/
def splitOnGo (sep : List Char) : List Char → Nat → List Char → List (List Char)
  | [], _, acc => [acc.reverse]
  | _ :: rest, skip + 1, acc => splitOnGo sep rest skip acc
  | c :: rest, 0, acc =>
    if sep.isPrefixOf (c :: rest) then
      acc.reverse :: splitOnGo sep rest (sep.length - 1) []
    else
      splitOnGo sep rest 0 (c :: acc)

/-- Python str.split(sep) for a non-empty separator. -/
def splitOn (sep l : List Char) : List (List Char) :=
  if sep = [] then [l] else splitOnGo sep l 0 []

/-- Python's `sub in s` substring containment. -/
def containsSub (sub : List Char) : List Char → Bool
  | [] => sub.isEmpty
  | c :: rest => sub.isPrefixOf (c :: rest) || containsSub sub rest

/-- Python "\n".join. -/
def joinNL (rs : List Str) : Str :=
  List.intercalate ['\n'] rs

/-- Decimal digit to character, as in Python str(n). -/
def digitToChar (d : Nat) : Char :=
  if d = 0 then '0' else if d = 1 then '1' else if d = 2 then '2'
  else if d = 3 then '3' else if d = 4 then '4' else if d = 5 then '5'
  else if d = 6 then '6' else if d = 7 then '7' else if d = 8 then '8'
  else '9'

/-- Value of a decimal digit character (inverse of digitToChar). -/
def digitVal (c : Char) : Nat :=
  if c = '0' then 0 else if c = '1' then 1 else if c = '2' then 2
  else if c = '3' then 3 else if c = '4' then 4 else if c = '5' then 5
  else if c = '6' then 6 else if c = '7' then 7 else if c = '8' then 8
  else 9

/-- Fueled decimal rendering worker (most significant digit first). -/
def natToCharsGo : Nat → Nat → List Char
  | 0, _ => []
  | fuel + 1, n =>
    if n < 10 then [digitToChar n]
    else natToCharsGo fuel (n / 10) ++ [digitToChar (n % 10)]

/-- Python str(n) for a natural number. -/
def natToChars (n : Nat) : List Char :=
  natToCharsGo (n + 1) n

/-- Decimal value of a digit string (left inverse of natToChars). -/
def valOf (l : List Char) : Nat :=
  l.foldl (fun a c => 10 * a + digitVal c) 0

/- ------------------------------------------------------------------ -/
/- Data model of the executor (enhanced_command_executor.py).          -/
/- ------------------------------------------------------------------ -/

/-- Status of a background process registry entry (ProcessManager). -/
inductive BgStatus where
  | running : BgStatus
  | completed : BgStatus
  | failed : BgStatus
  | killed : BgStatus
  | error : BgStatus
deriving DecidableEq

/-- A ProcessManager registry entry (the fields the claims observe). -/
structure BgEntry where
  command : Str
  status : BgStatus
deriving DecidableEq

/-- Combined state of a CommandChainExecutor and its ProcessManager: the
process counter, the background registry (a Python dict, modelled as an
insertion-ordered association list), an abstract tick counting OS
interactions, the last exit code, and the command history. -/
structure State where
  counter : Nat
  registry : List (Str × BgEntry)
  tick : Nat
  lastExitCode : Int
  history : List Str
deriving DecidableEq

/-- Outcome of subprocess.run for a single command: normal completion with
return code, captured stdout and stderr; a 30-second timeout; or a raised
exception with its message. -/
inductive SingleOutcome where
  | completed : Int → Str → Str → SingleOutcome
  | timedOut : SingleOutcome
  | exn : Str → SingleOutcome
deriving DecidableEq

/-- Outcome of a Popen pipeline: the per-stage exit codes and the last stage's
captured stdout and stderr, or a raised exception. -/
inductive PipeOutcome where
  | ran : List Int → Str → Str → PipeOutcome
  | exn : Str → PipeOutcome
deriving DecidableEq

/-- The OS oracle. Each function is indexed by the tick at which the executor
performs the interaction, so different invocations of the same command may
behave differently. spawnBg returns none on a successful Popen and the
exception message otherwise. -/
structure Env where
  runSingle : Nat → Str → SingleOutcome
  runPipe : Nat → List Str → PipeOutcome
  spawnBg : Nat → Str → Option Str

/-- Python dict assignment on an association list: replace in place if the key
exists, else append. -/
def updateA (reg : List (Str × BgEntry)) (k : Str) (v : BgEntry) : List (Str × BgEntry) :=
  match reg with
  | [] => [(k, v)]
  | (k', v') :: rest => if k' = k then (k, v) :: rest else (k', v') :: updateA rest k v

/-- Python dict lookup on an association list. -/
def lookupA (reg : List (Str × BgEntry)) (k : Str) : Option BgEntry :=
  match reg with
  | [] => none
  | (k', v) :: rest => if k' = k then some v else lookupA rest k

/-- The identifier string assigned to the n-th auto-named background process. -/
def mkBgId (n : Nat) : Str := "bg_".data ++ natToChars n

/-- ProcessManager.start_background_process: assign an id (increment the
counter when none, or an empty one, is supplied), attempt the spawn, and on
success store a running registry entry; on an exception return the error text
in place of the id without registering. Returns the id (or error text) and the
updated state. -/
def startBackgroundProcess (env : Env) (st : State) (command : Str)
    (pidArg : Option Str) : Str × State :=
  let assignNew : Bool :=
    match pidArg with
    | none => true
    | some p => p = []
  let counter' := if assignNew then st.counter + 1 else st.counter
  let pid := match pidArg with
    | none => mkBgId counter'
    | some p => if p = [] then mkBgId counter' else p
  match env.spawnBg st.tick command with
  | none =>
      (pid, { st with counter := counter', tick := st.tick + 1,
                      registry := updateA st.registry pid ⟨command, BgStatus.running⟩ })
  | some e =>
      ("Error starting background process: ".data ++ e,
       { st with counter := counter', tick := st.tick + 1 })

/-- CommandChainExecutor._execute_background. -/
def execBackground (env : Env) (st : State) (command : Str) : (Bool × Str) × State :=
  let r := startBackgroundProcess env st command none
  ((true, "Started background process: ".data ++ r.1), r.2)

/-- CommandChainExecutor._execute_single_command: run with a 30s timeout; on
normal exit success iff return code 0 and output = stdout.strip() or
stderr.strip() (Python or: the second only when the first is empty). -/
def execSingle (env : Env) (st : State) (command : Str) : (Bool × Str) × State :=
  match env.runSingle st.tick command with
  | SingleOutcome.completed code out err =>
      ((decide (code = 0), if strip out = [] then strip err else strip out),
       { st with tick := st.tick + 1, lastExitCode := code })
  | SingleOutcome.timedOut =>
      ((false, "Command timed out after 30 seconds".data), { st with tick := st.tick + 1 })
  | SingleOutcome.exn m =>
      ((false, "Command execution error: ".data ++ m), { st with tick := st.tick + 1 })

/-- CommandChainExecutor._execute_pipe: success iff every stage's exit code is
0; output = stdout.strip() if stdout (the raw captured stdout of the last
stage) is non-empty else stderr.strip(). -/
def execPipe (env : Env) (st : State) (stages : List Str) : (Bool × Str) × State :=
  match env.runPipe st.tick stages with
  | PipeOutcome.ran exits out err =>
      ((exits.all fun e => decide (e = 0), if out = [] then strip err else strip out),
       { st with tick := st.tick + 1 })
  | PipeOutcome.exn m =>
      ((false, "Pipe execution error: ".data ++ m), { st with tick := st.tick + 1 })

/-- The loop body of _execute_sequential over the already-stripped pieces:
skip empty pieces, execute the rest in order through exec, collect the
labelled results. -/
def seqLoop (exec : State → Str → (Bool × Str) × State) :
    State → List Str → List Str × State
  | st, [] => ([], st)
  | st, c :: rest =>
    if c = [] then seqLoop exec st rest
    else
      let r := exec st c
      let pr := seqLoop exec r.2 rest
      (("[".data ++ c ++ "] -> ".data ++ r.1.2) :: pr.1, pr.2)

/-- The loop body of _execute_conditional_and: skip empty pieces, stop at the
first failure. Returns the labelled results, whether every executed piece
succeeded, and the final state. -/
def andLoop (exec : State → Str → (Bool × Str) × State) :
    State → List Str → List Str × Bool × State
  | st, [] => ([], true, st)
  | st, c :: rest =>
    if c = [] then andLoop exec st rest
    else
      let r := exec st c
      let lbl := "[".data ++ c ++ "] -> ".data ++ r.1.2
      if r.1.1 then
        let pr := andLoop exec r.2 rest
        (lbl :: pr.1, pr.2.1, pr.2.2)
      else ([lbl], false, r.2)

/-- The loop body of _execute_conditional_or: skip empty pieces, stop at the
first success. Returns the labelled results, whether some executed piece
succeeded, and the final state. -/
def orLoop (exec : State → Str → (Bool × Str) × State) :
    State → List Str → List Str × Bool × State
  | st, [] => ([], false, st)
  | st, c :: rest =>
    if c = [] then orLoop exec st rest
    else
      let r := exec st c
      let lbl := "[".data ++ c ++ "] -> ".data ++ r.1.2
      if r.1.1 then ([lbl], true, r.2)
      else
        let pr := orLoop exec r.2 rest
        (lbl :: pr.1, pr.2.1, pr.2.2)

/-- Fueled version of CommandChainExecutor._parse_and_execute. The dispatch
order mirrors the source: trailing " &" (background), then ";" (sequential),
then "||" (conditional OR), then "&&" (conditional AND), then "|" (pipe), else
single command. Sub-commands of the three chain forms are the stripped pieces
of the corresponding split and are executed recursively. -/
def parseAndExecuteF : Nat → Env → State → Str → (Bool × Str) × State
  | 0, _, st, _ => ((false, []), st)
  | fuel + 1, env, st, chain =>
    let s := strip chain
    if " &".data.isSuffixOf s then
      execBackground env st (strip s.dropLast)
    else if containsSub (";".data) s then
      let pr := seqLoop (fun a c => parseAndExecuteF fuel env a c) st
        ((splitOn (";".data) s).map strip)
      ((true, joinNL pr.1), pr.2)
    else if containsSub ("||".data) s then
      let pr := orLoop (fun a c => parseAndExecuteF fuel env a c) st
        ((splitOn ("||".data) s).map strip)
      (if pr.2.1 then (true, joinNL pr.1 ++ "\n(Chain succeeded)".data)
       else (false, joinNL pr.1 ++ "\n(All commands failed)".data), pr.2.2)
    else if containsSub ("&&".data) s then
      let pr := andLoop (fun a c => parseAndExecuteF fuel env a c) st
        ((splitOn ("&&".data) s).map strip)
      (if pr.2.1 then (true, joinNL pr.1)
       else (false, joinNL pr.1 ++ "\n(Chain stopped due to failure)".data), pr.2.2)
    else if containsSub ("|".data) s then
      execPipe env st ((splitOn ("|".data) s).map strip)
    else
      execSingle env st s

/-- CommandChainExecutor._parse_and_execute. The fuel chain.length + 1 is
sufficient because every recursive call is on a strictly shorter string
(established by parseAndExecuteF_fuel_irrelevant below). -/
def parseAndExecute (env : Env) (st : State) (chain : Str) : (Bool × Str) × State :=
  parseAndExecuteF (chain.length + 1) env st chain

/-- execute_command_chain first appends the submitted expression to the
command history. -/
def pushHistory (st : State) (chain : Str) : State :=
  { st with history := st.history ++ [chain] }

/-- CommandChainExecutor.execute_command_chain: log to history, then parse and
execute. -/
def executeCommandChain (env : Env) (st : State) (chain : Str) : (Bool × Str) × State :=
  parseAndExecute env (pushHistory st chain) chain

/-- Reference runner: execute every piece in order (no skipping, no early
stop), collecting for each the label "[piece] -> output" together with its
success flag. Used to express what the sequential and conditional chains
compute. -/
def chainRun (env : Env) : State → List Str → List (Str × Bool) × State
  | st, [] => ([], st)
  | st, c :: rest =>
    let r := parseAndExecute env st c
    let pr := chainRun env r.2 rest
    (("[".data ++ c ++ "] -> ".data ++ r.1.2, r.1.1) :: pr.1, pr.2)

/-- The stripped pieces of the ";"-split of a chain (its sequential
sub-commands). -/
def seqPieces (chain : Str) : List Str :=
  (splitOn (";".data) (strip chain)).map strip

/-- The stripped pieces of the "&&"-split of a chain (its conditional-AND
sub-commands). -/
def andPieces (chain : Str) : List Str :=
  (splitOn ("&&".data) (strip chain)).map strip

/-- The stripped pieces of the "|"-split of a chain (its pipe stages). -/
def pipeStages (chain : Str) : List Str :=
  (splitOn ("|".data) (strip chain)).map strip

/- ------------------------------------------------------------------ -/
/- ProcessManager.kill_process.                                        -/
/- ------------------------------------------------------------------ -/

/-- The signals kill_process may send to the underlying OS process. -/
inductive KSig where
  | terminate : KSig
  | forceKill : KSig
deriving DecidableEq

/-- Replace the status of the entry under key k (dict mutation
running_processes[k]["status"] = s). -/
def setStatusA (reg : List (Str × BgEntry)) (k : Str) (s : BgStatus) :
    List (Str × BgEntry) :=
  match reg with
  | [] => []
  | (k', v) :: rest =>
    if k' = k then (k', { v with status := s }) :: rest
    else (k', v) :: setStatusA rest k s

/-- ProcessManager.kill_process. aliveNow models poll() is None at entry;
stillAliveAfterWait models poll() is None again after terminate and the
1-second sleep. Returns the boolean result, the updated registry, and the
signals sent: unknown ids yield false untouched; otherwise terminate (and,
if needed, a force kill) is sent only when the process is still running, and
the entry's status is unconditionally overwritten with killed. -/
def killProcess (reg : List (Str × BgEntry)) (pid : Str)
    (aliveNow stillAliveAfterWait : Bool) :
    Bool × List (Str × BgEntry) × List KSig :=
  match lookupA reg pid with
  | none => (false, reg, [])
  | some _ =>
      let sigs := if aliveNow then
          KSig.terminate :: (if stillAliveAfterWait then [KSig.forceKill] else [])
        else []
      (true, setStatusA reg pid BgStatus.killed, sigs)

/- ------------------------------------------------------------------ -/
/- Identifier assignment in the two managers                           -/
/- (ProcessManager / InteractiveSessionManager).                       -/
/- ------------------------------------------------------------------ -/

/-- The identifier string assigned to the n-th interactive session. -/
def mkSessionId (n : Nat) : Str := "interactive_".data ++ natToChars n

/-- Operations a caller can perform on an InteractiveSessionManager that touch
the registry: create_session (the id is always auto-assigned) and
close_session. -/
inductive SMOp where
  | create : Str → SMOp
  | close : Str → SMOp

/-- Registry-relevant state of an InteractiveSessionManager: the session
counter and the identifiers currently registered. -/
structure SMState where
  counter : Nat
  keys : List Str
deriving DecidableEq

def smInit : SMState := ⟨0, []⟩

/-- One step of the session manager; returns the new state and the counter
value consumed if an identifier was assigned. create_session increments the
counter and registers interactive_{counter}; close_session removes the entry
when present and never touches the counter. -/
def smStep (st : SMState) : SMOp → SMState × Option Nat
  | SMOp.create _ =>
      (⟨st.counter + 1, st.keys ++ [mkSessionId (st.counter + 1)]⟩, some (st.counter + 1))
  | SMOp.close id =>
      if id ∈ st.keys then (⟨st.counter, st.keys.erase id⟩, none) else (st, none)

/-- Run a sequence of session-manager operations, collecting the counter
values at which identifiers were assigned, in order. -/
def smRun : SMState → List SMOp → SMState × List Nat
  | st, [] => (st, [])
  | st, op :: ops =>
      let r := smStep st op
      let pr := smRun r.1 ops
      (pr.1, r.2.toList ++ pr.2)

/-- Operations on a ProcessManager that touch identifier assignment:
start_background_process with an auto-assigned id (the boolean records whether
the spawn succeeded; the counter is consumed either way, but on a spawn
exception nothing is registered and no id is returned) and kill_process, which
only rewrites a status and never removes an entry. -/
inductive PMOp where
  | start : Str → Bool → PMOp
  | kill : Str → PMOp

/-- Registry-relevant state of a ProcessManager for identifier assignment. -/
structure PMState where
  counter : Nat
  keys : List Str
deriving DecidableEq

def pmInit : PMState := ⟨0, []⟩

/-- One step of the process manager (see PMOp). -/
def pmStep (st : PMState) : PMOp → PMState × Option Nat
  | PMOp.start _ true =>
      (⟨st.counter + 1, st.keys ++ [mkBgId (st.counter + 1)]⟩, some (st.counter + 1))
  | PMOp.start _ false => (⟨st.counter + 1, st.keys⟩, none)
  | PMOp.kill _ => (st, none)

/-- Run a sequence of process-manager operations, collecting the counter
values at which identifiers were assigned, in order. -/
def pmRun : PMState → List PMOp → PMState × List Nat
  | st, [] => (st, [])
  | st, op :: ops =>
      let r := pmStep st op
      let pr := pmRun r.1 ops
      (pr.1, r.2.toList ++ pr.2)

/- ------------------------------------------------------------------ -/
/- InteractiveSessionManager.cleanup_inactive_sessions.                -/
/- ------------------------------------------------------------------ -/

/-- Python's (now - last_activity).seconds for whole-second datetimes with
now ≥ last_activity: the seconds component of the timedelta, i.e. the elapsed
seconds modulo one day — not the total elapsed seconds. -/
def tdSecondsComponent (now lastActivity : Nat) : Nat :=
  (now - lastActivity) % 86400

/-- InteractiveSessionManager.cleanup_inactive_sessions: collect the sessions
whose (now - last_activity).seconds exceeds the threshold, close and evict
each of them, and return how many were evicted. Sessions are modelled by
their identifier and last-activity time (in whole seconds). -/
def cleanupInactiveSessions (now threshold : Nat) (sessions : List (Str × Nat)) :
    Nat × List (Str × Nat) :=
  let inactive := sessions.filter fun s => decide (threshold < tdSecondsComponent now s.2)
  (inactive.length,
   sessions.filter fun s => ! decide (threshold < tdSecondsComponent now s.2))

/- ------------------------------------------------------------------ -/
/- Concrete environments and states used by witnesses and              -/
/- counterexamples.                                                    -/
/- ------------------------------------------------------------------ -/

/-- The initial executor state (counter 0, empty registry and history). -/
def st0 : State := ⟨0, [], 0, 0, []⟩

/-- An oracle where "echo hello" prints hello and every other command fails:
used to witness single-command execution. -/
def envC1 : Env where
  runSingle := fun _ c =>
    if c = "echo hello".data then SingleOutcome.completed 0 ("hello\n".data) []
    else SingleOutcome.completed 1 [] ("boom".data)
  runPipe := fun _ _ => PipeOutcome.exn []
  spawnBg := fun _ _ => none

/-- An oracle whose pipelines report exit codes [0, 1] with the last stage
writing "x" to stdout and "boom" to stderr: the failing pipe still returns
the stdout text. -/
def envC2 : Env where
  runSingle := fun _ _ => SingleOutcome.completed 0 [] []
  runPipe := fun _ _ => PipeOutcome.ran [0, 1] ("x\n".data) ("boom".data)
  spawnBg := fun _ _ => none

/-- An oracle whose pipelines report exit codes [0, 0] with the last stage
writing "HI" to stdout: used to witness successful pipes. -/
def envC2w : Env where
  runSingle := fun _ _ => SingleOutcome.completed 0 [] []
  runPipe := fun _ _ => PipeOutcome.ran [0, 0] ("HI\n".data) []
  spawnBg := fun _ _ => none

/-- An oracle for sequential/conditional chains: echo a and echo b print
their text, "false" exits with code 1 and stderr "err", anything else exits 0
silently. -/
def envSeq : Env where
  runSingle := fun _ c =>
    if c = "echo a".data then SingleOutcome.completed 0 ("a\n".data) []
    else if c = "echo b".data then SingleOutcome.completed 0 ("b\n".data) []
    else if c = "false".data then SingleOutcome.completed 1 [] ("err".data)
    else SingleOutcome.completed 0 [] []
  runPipe := fun _ _ => PipeOutcome.exn []
  spawnBg := fun _ _ => none

/-- An oracle where every command exits with code 1, stdout "out" and stderr
"err": exhibits the stdout-first output selection on failures. -/
def envC5 : Env where
  runSingle := fun _ _ => SingleOutcome.completed 1 ("out\n".data) ("err\n".data)
  runPipe := fun _ _ => PipeOutcome.exn []
  spawnBg := fun _ _ => none

/-- An oracle where background spawns always succeed. -/
def envBg : Env where
  runSingle := fun _ _ => SingleOutcome.completed 0 [] []
  runPipe := fun _ _ => PipeOutcome.exn []
  spawnBg := fun _ _ => none

/-- A registry holding one background process that has already completed:
used against kill_process's terminal-status behavior. -/
def regC6 : List (Str × BgEntry) := [("bg_1".data, ⟨"x".data, BgStatus.completed⟩)]

/-- A registry holding one running background process. -/
def regC6run : List (Str × BgEntry) := [("bg_1".data, ⟨"x".data, BgStatus.running⟩)]

/- ------------------------------------------------------------------ -/
/- Basic lemmas about the string model.                                -/
/- ------------------------------------------------------------------ -/

theorem length_dropWhile_le (p : Char → Bool) (l : List Char) :
    (l.dropWhile p).length ≤ l.length := by
  induction l with
  | nil => simp [List.dropWhile]
  | cons c rest ih =>
    by_cases h : p c
    · simp [List.dropWhile, h]
      omega
    · simp [List.dropWhile, h]

theorem strip_length_le (l : Str) : (strip l).length ≤ l.length := by
  unfold strip
  calc ((l.dropWhile isSpaceChar).reverse.dropWhile isSpaceChar).reverse.length
      = ((l.dropWhile isSpaceChar).reverse.dropWhile isSpaceChar).length := by
        simp
    _ ≤ (l.dropWhile isSpaceChar).reverse.length := length_dropWhile_le _ _
    _ = (l.dropWhile isSpaceChar).length := by simp
    _ ≤ l.length := length_dropWhile_le _ _

theorem isPrefixOf_cons_eq (a : Char) (t : List Char) (c : Char) (rest : List Char) :
    (a :: t).isPrefixOf (c :: rest) = (a == c && t.isPrefixOf rest) := rfl

theorem isPrefixOf_length_le :
    ∀ (a b : List Char), a.isPrefixOf b = true → a.length ≤ b.length := by
  intro a
  induction a with
  | nil => intro b _; simp
  | cons x xs ih =>
    intro b h
    cases b with
    | nil => simp [List.isPrefixOf] at h
    | cons y ys =>
      rw [isPrefixOf_cons_eq, Bool.and_eq_true] at h
      have := ih ys h.2
      simp
      omega

theorem splitOnGo_piece_length_le (sep : List Char) :
    ∀ (l : List Char) (skip : Nat) (acc : List Char) (p : List Char),
      p ∈ splitOnGo sep l skip acc → p.length ≤ acc.length + (l.length - skip) := by
  intro l
  induction l with
  | nil =>
    intro skip acc p hp
    simp [splitOnGo] at hp
    subst hp
    simp
  | cons c rest ih =>
    intro skip acc p hp
    cases skip with
    | succ k =>
      have := ih k acc p hp
      simp only [List.length_cons] at this ⊢
      omega
    | zero =>
      by_cases hpre : sep.isPrefixOf (c :: rest) = true
      · simp [splitOnGo, hpre] at hp
        rcases hp with hp | hp
        · subst hp
          simp only [List.length_reverse, List.length_cons]
          omega
        · have := ih (sep.length - 1) [] p hp
          simp at this ⊢
          omega
      · simp [splitOnGo, hpre] at hp
        have := ih 0 (c :: acc) p hp
        simp at this ⊢
        omega

theorem splitOnGo_piece_add_sep_le (sep : List Char) (hsep : sep ≠ []) :
    ∀ (l : List Char) (acc : List Char),
      containsSub sep l = true →
      ∀ p ∈ splitOnGo sep l 0 acc, p.length + sep.length ≤ acc.length + l.length := by
  intro l
  induction l with
  | nil =>
    intro acc hc
    simp [containsSub, List.isEmpty_iff, hsep] at hc
  | cons c rest ih =>
    intro acc hc p hp
    by_cases hpre : sep.isPrefixOf (c :: rest) = true
    · have hlen : sep.length ≤ (c :: rest).length := isPrefixOf_length_le _ _ hpre
      simp [splitOnGo, hpre] at hp
      rcases hp with hp | hp
      · subst hp
        simp at hlen ⊢
        omega
      · have := splitOnGo_piece_length_le sep rest (sep.length - 1) [] p hp
        simp at this hlen ⊢
        omega
    · have hc' : containsSub sep rest = true := by
        simp [containsSub, hpre] at hc
        exact hc
      simp [splitOnGo, hpre] at hp
      have := ih (c :: acc) hc' p hp
      simp at this ⊢
      omega

/-- Every piece of a split that actually hit the separator is strictly shorter
than the input. -/
theorem splitOn_piece_lt (sep l : List Char) (hsep : sep ≠ [])
    (hc : containsSub sep l = true) :
    ∀ p ∈ splitOn sep l, p.length < l.length := by
  intro p hp
  have hlen : 1 ≤ sep.length := by
    cases sep with
    | nil => exact absurd rfl hsep
    | cons x xs => simp
  unfold splitOn at hp
  rw [if_neg hsep] at hp
  have := splitOnGo_piece_add_sep_le sep hsep l [] hc p hp
  simp at this
  omega

/-- Containment of a longer substring implies containment of its head
character. -/
theorem containsSub_head (a : Char) (t : List Char) (l : List Char)
    (h : containsSub (a :: t) l = true) : containsSub [a] l = true := by
  induction l with
  | nil => simp [containsSub] at h
  | cons c rest ih =>
    rw [containsSub, Bool.or_eq_true] at h ⊢
    rcases h with h | h
    · rw [isPrefixOf_cons_eq, Bool.and_eq_true] at h
      left
      rw [isPrefixOf_cons_eq, Bool.and_eq_true]
      exact ⟨h.1, by cases rest <;> rfl⟩
    · exact Or.inr (ih h)

theorem valOf_natToCharsGo : ∀ (fuel n : Nat), n < fuel → valOf (natToCharsGo fuel n) = n := by
  intro fuel
  induction fuel with
  | zero => intro n h; omega
  | succ f ih =>
    intro n h
    by_cases h10 : n < 10
    · simp [natToCharsGo, h10, valOf]
      interval_cases n <;> rfl
    · have hdiv : n / 10 < f := by
        have h1 : n / 10 < n := Nat.div_lt_self (by omega) (by omega)
        omega
      simp only [natToCharsGo, if_neg h10]
      unfold valOf
      rw [List.foldl_append]
      have := ih (n / 10) hdiv
      unfold valOf at this
      rw [this]
      simp only [List.foldl_cons, List.foldl_nil]
      have hm : n % 10 < 10 := Nat.mod_lt _ (by omega)
      have hdg : digitVal (digitToChar (n % 10)) = n % 10 := by
        set m := n % 10 with hmdef
        interval_cases m <;> rfl
      rw [hdg]
      omega

theorem valOf_natToChars (n : Nat) : valOf (natToChars n) = n :=
  valOf_natToCharsGo (n + 1) n (by omega)

theorem natToChars_injective : Function.Injective natToChars := by
  intro m n h
  have hm := valOf_natToChars m
  have hn := valOf_natToChars n
  rw [h] at hm
  omega

/- ------------------------------------------------------------------ -/
/- Unfolding machinery: the fuel in parseAndExecuteF is irrelevant     -/
/- once it exceeds the length of the input string.                     -/
/- ------------------------------------------------------------------ -/

theorem seqLoop_congr (e₁ e₂ : State → Str → (Bool × Str) × State) :
    ∀ (pieces : List Str) (st : State),
      (∀ c ∈ pieces, c ≠ [] → ∀ a, e₁ a c = e₂ a c) →
      seqLoop e₁ st pieces = seqLoop e₂ st pieces := by
  intro pieces
  induction pieces with
  | nil => intro st _; rfl
  | cons c rest ih =>
    intro st h
    by_cases hc : c = []
    · simp only [seqLoop, if_pos hc]
      exact ih st (fun p hp => h p (List.mem_cons_of_mem _ hp))
    · simp only [seqLoop, if_neg hc]
      rw [h c (List.mem_cons_self _ _) hc st,
          ih (e₂ st c).2 (fun p hp => h p (List.mem_cons_of_mem _ hp))]

theorem andLoop_congr (e₁ e₂ : State → Str → (Bool × Str) × State) :
    ∀ (pieces : List Str) (st : State),
      (∀ c ∈ pieces, c ≠ [] → ∀ a, e₁ a c = e₂ a c) →
      andLoop e₁ st pieces = andLoop e₂ st pieces := by
  intro pieces
  induction pieces with
  | nil => intro st _; rfl
  | cons c rest ih =>
    intro st h
    by_cases hc : c = []
    · simp only [andLoop, if_pos hc]
      exact ih st (fun p hp => h p (List.mem_cons_of_mem _ hp))
    · simp only [andLoop, if_neg hc]
      rw [h c (List.mem_cons_self _ _) hc st,
          ih (e₂ st c).2 (fun p hp => h p (List.mem_cons_of_mem _ hp))]

theorem orLoop_congr (e₁ e₂ : State → Str → (Bool × Str) × State) :
    ∀ (pieces : List Str) (st : State),
      (∀ c ∈ pieces, c ≠ [] → ∀ a, e₁ a c = e₂ a c) →
      orLoop e₁ st pieces = orLoop e₂ st pieces := by
  intro pieces
  induction pieces with
  | nil => intro st _; rfl
  | cons c rest ih =>
    intro st h
    by_cases hc : c = []
    · simp only [orLoop, if_pos hc]
      exact ih st (fun p hp => h p (List.mem_cons_of_mem _ hp))
    · simp only [orLoop, if_neg hc]
      rw [h c (List.mem_cons_self _ _) hc st,
          ih (e₂ st c).2 (fun p hp => h p (List.mem_cons_of_mem _ hp))]

/-- A non-empty stripped piece of an operator split of strip chain is strictly
shorter than the chain itself. -/
theorem stripped_piece_lt (sep chain : Str) (hsep : sep ≠ [])
    (hc : containsSub sep (strip chain) = true) :
    ∀ c ∈ (splitOn sep (strip chain)).map strip, c.length < chain.length := by
  intro c hcmem
  rcases List.mem_map.mp hcmem with ⟨p, hp, hpc⟩
  have h1 : p.length < (strip chain).length := splitOn_piece_lt sep (strip chain) hsep hc p hp
  have h2 : (strip p).length ≤ p.length := strip_length_le p
  have h3 : (strip chain).length ≤ chain.length := strip_length_le chain
  subst hpc
  omega

theorem parseAndExecuteF_fuel_irrelevant :
    ∀ (n f₁ f₂ : Nat) (env : Env) (st : State) (chain : Str),
      chain.length ≤ n → chain.length < f₁ → chain.length < f₂ →
      parseAndExecuteF f₁ env st chain = parseAndExecuteF f₂ env st chain := by
  intro n
  induction n with
  | zero =>
    intro f₁ f₂ env st chain hn h₁ h₂
    have hch : chain = [] := List.length_eq_zero.mp (by omega)
    subst hch
    obtain ⟨g₁, rfl⟩ : ∃ g, f₁ = g + 1 := ⟨f₁ - 1, by omega⟩
    obtain ⟨g₂, rfl⟩ : ∃ g, f₂ = g + 1 := ⟨f₂ - 1, by omega⟩
    rfl
  | succ m ih =>
    intro f₁ f₂ env st chain hn h₁ h₂
    obtain ⟨g₁, rfl⟩ : ∃ g, f₁ = g + 1 := ⟨f₁ - 1, by omega⟩
    obtain ⟨g₂, rfl⟩ : ∃ g, f₂ = g + 1 := ⟨f₂ - 1, by omega⟩
    simp only [parseAndExecuteF]
    by_cases hbg : " &".data.isSuffixOf (strip chain) = true
    · rw [if_pos hbg, if_pos hbg]
    rw [if_neg hbg, if_neg hbg]
    by_cases hseq : containsSub (";".data) (strip chain) = true
    · rw [if_pos hseq, if_pos hseq]
      have hcongr := seqLoop_congr
        (fun a c => parseAndExecuteF g₁ env a c) (fun a c => parseAndExecuteF g₂ env a c)
        ((splitOn (";".data) (strip chain)).map strip) st ?_
      · rw [hcongr]
      · intro c hcmem _ a
        have hlt := stripped_piece_lt (";".data) chain (by decide) hseq c hcmem
        exact ih g₁ g₂ env a c (by omega) (by omega) (by omega)
    rw [if_neg hseq, if_neg hseq]
    by_cases hor : containsSub ("||".data) (strip chain) = true
    · rw [if_pos hor, if_pos hor]
      have hcongr := orLoop_congr
        (fun a c => parseAndExecuteF g₁ env a c) (fun a c => parseAndExecuteF g₂ env a c)
        ((splitOn ("||".data) (strip chain)).map strip) st ?_
      · rw [hcongr]
      · intro c hcmem _ a
        have hlt := stripped_piece_lt ("||".data) chain (by decide) hor c hcmem
        exact ih g₁ g₂ env a c (by omega) (by omega) (by omega)
    rw [if_neg hor, if_neg hor]
    by_cases hand : containsSub ("&&".data) (strip chain) = true
    · rw [if_pos hand, if_pos hand]
      have hcongr := andLoop_congr
        (fun a c => parseAndExecuteF g₁ env a c) (fun a c => parseAndExecuteF g₂ env a c)
        ((splitOn ("&&".data) (strip chain)).map strip) st ?_
      · rw [hcongr]
      · intro c hcmem _ a
        have hlt := stripped_piece_lt ("&&".data) chain (by decide) hand c hcmem
        exact ih g₁ g₂ env a c (by omega) (by omega) (by omega)
    rw [if_neg hand, if_neg hand]

/-- The recursive executor called with the canonical fuel agrees with
parseAndExecute on every sub-command shorter than the chain. -/
theorem parseAndExecuteF_eq_parseAndExecute (env : Env) (chain c : Str)
    (hlt : c.length < chain.length) :
    ∀ a, parseAndExecuteF chain.length env a c = parseAndExecute env a c := by
  intro a
  unfold parseAndExecute
  exact parseAndExecuteF_fuel_irrelevant c.length chain.length (c.length + 1) env a c
    (by omega) (by omega) (by omega)

/-- Dispatch: a trimmed expression with a trailing " &" is executed as a
background command on the rest of the string (the "&" stripped). -/
theorem parseAndExecute_bg (env : Env) (st : State) (chain : Str)
    (hbg : " &".data.isSuffixOf (strip chain) = true) :
    parseAndExecute env st chain = execBackground env st (strip (strip chain).dropLast) := by
  conv_lhs => rw [parseAndExecute, parseAndExecuteF]
  rw [if_pos hbg]

/-- Dispatch: no trailing " &" and a ";" present means sequential execution
over the stripped pieces of the ";"-split. -/
theorem parseAndExecute_seq (env : Env) (st : State) (chain : Str)
    (hbg : " &".data.isSuffixOf (strip chain) = false)
    (hseq : containsSub (";".data) (strip chain) = true) :
    parseAndExecute env st chain =
      ((true, joinNL (seqLoop (fun a c => parseAndExecute env a c) st (seqPieces chain)).1),
       (seqLoop (fun a c => parseAndExecute env a c) st (seqPieces chain)).2) := by
  have hbg' : ¬ (" &".data.isSuffixOf (strip chain) = true) := by simp [hbg]
  conv_lhs => rw [parseAndExecute, parseAndExecuteF]
  rw [if_neg hbg', if_pos hseq]
  have hcongr := seqLoop_congr
    (fun a c => parseAndExecuteF chain.length env a c) (fun a c => parseAndExecute env a c)
    ((splitOn (";".data) (strip chain)).map strip) st ?_
  · rw [seqPieces, hcongr]
  · intro c hcmem _ a
    exact parseAndExecuteF_eq_parseAndExecute env chain c
      (stripped_piece_lt (";".data) chain (by decide) hseq c hcmem) a

/-- Dispatch: no trailing " &", no ";", but a "||" present means
conditional-OR execution over the stripped pieces of the "||"-split. -/
theorem parseAndExecute_or (env : Env) (st : State) (chain : Str)
    (hbg : " &".data.isSuffixOf (strip chain) = false)
    (hseq : containsSub (";".data) (strip chain) = false)
    (hor : containsSub ("||".data) (strip chain) = true) :
    parseAndExecute env st chain =
      (let pr := orLoop (fun a c => parseAndExecute env a c) st
        ((splitOn ("||".data) (strip chain)).map strip)
       (if pr.2.1 then (true, joinNL pr.1 ++ "\n(Chain succeeded)".data)
        else (false, joinNL pr.1 ++ "\n(All commands failed)".data), pr.2.2)) := by
  have hbg' : ¬ (" &".data.isSuffixOf (strip chain) = true) := by simp [hbg]
  have hseq' : ¬ (containsSub (";".data) (strip chain) = true) := by simp [hseq]
  conv_lhs => rw [parseAndExecute, parseAndExecuteF]
  rw [if_neg hbg', if_neg hseq', if_pos hor]
  have hcongr := orLoop_congr
    (fun a c => parseAndExecuteF chain.length env a c) (fun a c => parseAndExecute env a c)
    ((splitOn ("||".data) (strip chain)).map strip) st ?_
  · rw [hcongr]
  · intro c hcmem _ a
    exact parseAndExecuteF_eq_parseAndExecute env chain c
      (stripped_piece_lt ("||".data) chain (by decide) hor c hcmem) a

/-- Dispatch: no trailing " &", no ";", no "||", but a "&&" present means
conditional-AND execution over the stripped pieces of the "&&"-split. -/
theorem parseAndExecute_and (env : Env) (st : State) (chain : Str)
    (hbg : " &".data.isSuffixOf (strip chain) = false)
    (hseq : containsSub (";".data) (strip chain) = false)
    (hor : containsSub ("||".data) (strip chain) = false)
    (hand : containsSub ("&&".data) (strip chain) = true) :
    parseAndExecute env st chain =
      (let pr := andLoop (fun a c => parseAndExecute env a c) st (andPieces chain)
       (if pr.2.1 then (true, joinNL pr.1)
        else (false, joinNL pr.1 ++ "\n(Chain stopped due to failure)".data), pr.2.2)) := by
  have hbg' : ¬ (" &".data.isSuffixOf (strip chain) = true) := by simp [hbg]
  have hseq' : ¬ (containsSub (";".data) (strip chain) = true) := by simp [hseq]
  have hor' : ¬ (containsSub ("||".data) (strip chain) = true) := by simp [hor]
  conv_lhs => rw [parseAndExecute, parseAndExecuteF]
  rw [if_neg hbg', if_neg hseq', if_neg hor', if_pos hand]
  have hcongr := andLoop_congr
    (fun a c => parseAndExecuteF chain.length env a c) (fun a c => parseAndExecute env a c)
    ((splitOn ("&&".data) (strip chain)).map strip) st ?_
  · rw [andPieces, hcongr]
  · intro c hcmem _ a
    exact parseAndExecuteF_eq_parseAndExecute env chain c
      (stripped_piece_lt ("&&".data) chain (by decide) hand c hcmem) a

/-- Dispatch: no trailing " &" and no ";", "||", "&&", but a "|" present means
pipe execution over the stripped stages of the "|"-split. -/
theorem parseAndExecute_pipe (env : Env) (st : State) (chain : Str)
    (hbg : " &".data.isSuffixOf (strip chain) = false)
    (hseq : containsSub (";".data) (strip chain) = false)
    (hor : containsSub ("||".data) (strip chain) = false)
    (hand : containsSub ("&&".data) (strip chain) = false)
    (hpipe : containsSub ("|".data) (strip chain) = true) :
    parseAndExecute env st chain = execPipe env st (pipeStages chain) := by
  have hbg' : ¬ (" &".data.isSuffixOf (strip chain) = true) := by simp [hbg]
  have hseq' : ¬ (containsSub (";".data) (strip chain) = true) := by simp [hseq]
  have hor' : ¬ (containsSub ("||".data) (strip chain) = true) := by simp [hor]
  have hand' : ¬ (containsSub ("&&".data) (strip chain) = true) := by simp [hand]
  conv_lhs => rw [parseAndExecute, parseAndExecuteF]
  rw [if_neg hbg', if_neg hseq', if_neg hor', if_neg hand', if_pos hpipe]
  rfl

/-- Dispatch: an expression with no trailing " &" and none of ";", "||", "&&",
"|" is executed as a single command on its trimmed text. -/
theorem parseAndExecute_single (env : Env) (st : State) (chain : Str)
    (hbg : " &".data.isSuffixOf (strip chain) = false)
    (hseq : containsSub (";".data) (strip chain) = false)
    (hor : containsSub ("||".data) (strip chain) = false)
    (hand : containsSub ("&&".data) (strip chain) = false)
    (hpipe : containsSub ("|".data) (strip chain) = false) :
    parseAndExecute env st chain = execSingle env st (strip chain) := by
  have hbg' : ¬ (" &".data.isSuffixOf (strip chain) = true) := by simp [hbg]
  have hseq' : ¬ (containsSub (";".data) (strip chain) = true) := by simp [hseq]
  have hor' : ¬ (containsSub ("||".data) (strip chain) = true) := by simp [hor]
  have hand' : ¬ (containsSub ("&&".data) (strip chain) = true) := by simp [hand]
  have hpipe' : ¬ (containsSub ("|".data) (strip chain) = true) := by simp [hpipe]
  conv_lhs => rw [parseAndExecute, parseAndExecuteF]
  rw [if_neg hbg', if_neg hseq', if_neg hor', if_neg hand', if_neg hpipe']

/- ------------------------------------------------------------------ -/
/- Relating the chain loops to the reference runner chainRun.          -/
/- ------------------------------------------------------------------ -/

theorem chainRun_length (env : Env) :
    ∀ (cs : List Str) (st : State), ((chainRun env st cs).1).length = cs.length := by
  intro cs
  induction cs with
  | nil => intro st; rfl
  | cons c rest ih =>
    intro st
    simp only [chainRun, List.length_cons]
    rw [ih]

theorem chainRun_append (env : Env) :
    ∀ (cs ds : List Str) (st : State),
      chainRun env st (cs ++ ds) =
        ((chainRun env st cs).1 ++ (chainRun env (chainRun env st cs).2 ds).1,
         (chainRun env (chainRun env st cs).2 ds).2) := by
  intro cs
  induction cs with
  | nil => intro ds st; rfl
  | cons c rest ih =>
    intro ds st
    simp only [List.cons_append, chainRun, List.append_eq, ih]

/-- On a list of non-empty pieces the sequential loop computes exactly the
labels of the reference runner, in order, with the same final state. -/
theorem seqLoop_eq_chainRun (env : Env) :
    ∀ (cs : List Str) (st : State), (∀ c ∈ cs, c ≠ []) →
      seqLoop (fun a c => parseAndExecute env a c) st cs =
        (((chainRun env st cs).1).map Prod.fst, (chainRun env st cs).2) := by
  intro cs
  induction cs with
  | nil => intro st _; rfl
  | cons c rest ih =>
    intro st h
    have hc : c ≠ [] := h c (List.mem_cons_self _ _)
    simp only [seqLoop, if_neg hc, chainRun, List.map_cons]
    rw [ih (parseAndExecute env st c).2 (fun p hp => h p (List.mem_cons_of_mem _ hp))]

/-- Each entry of the reference runner's result list is the label of the
corresponding piece: an opening bracket, the piece's text, then "] -> "
followed by that piece's output. -/
theorem chainRun_get (env : Env) :
    ∀ (cs : List Str) (st : State) (i : Nat)
      (h1 : i < ((chainRun env st cs).1).length) (h2 : i < cs.length),
      ∃ o, (((chainRun env st cs).1).get ⟨i, h1⟩).1 =
        "[".data ++ cs.get ⟨i, h2⟩ ++ "] -> ".data ++ o := by
  intro cs
  induction cs with
  | nil => intro st i h1 h2; simp at h2
  | cons c rest ih =>
    intro st i h1 h2
    cases i with
    | zero =>
      refine ⟨(parseAndExecute env st c).1.2, ?_⟩
      simp [chainRun]
    | succ j =>
      have h1' : j < ((chainRun env (parseAndExecute env st c).2 rest).1).length := by
        have := chainRun_length env (c :: rest) st
        have := chainRun_length env rest (parseAndExecute env st c).2
        simp at h2
        omega
      have h2' : j < rest.length := by simp at h2; omega
      rcases ih (parseAndExecute env st c).2 j h1' h2' with ⟨o, ho⟩
      exact ⟨o, ho⟩

/-- When every executed piece succeeds, the conditional-AND loop runs the
whole list and reports overall success. -/
theorem andLoop_all_success (env : Env) :
    ∀ (cs : List Str) (st : State), (∀ c ∈ cs, c ≠ []) →
      (∀ pr ∈ (chainRun env st cs).1, pr.2 = true) →
      andLoop (fun a c => parseAndExecute env a c) st cs =
        (((chainRun env st cs).1).map Prod.fst, true, (chainRun env st cs).2) := by
  intro cs
  induction cs with
  | nil => intro st _ _; rfl
  | cons c rest ih =>
    intro st h hall
    have hc : c ≠ [] := h c (List.mem_cons_self _ _)
    have hsucc : (parseAndExecute env st c).1.1 = true := by
      have := hall ("[".data ++ c ++ "] -> ".data ++ (parseAndExecute env st c).1.2,
        (parseAndExecute env st c).1.1) (by simp [chainRun])
      exact this
    have ihx := ih (parseAndExecute env st c).2 (fun p hp => h p (List.mem_cons_of_mem _ hp))
      (fun pr hpr => hall pr (by simp [chainRun]; right; exact hpr))
    simp only [andLoop, if_neg hc, hsucc, eq_self_iff_true, if_true, ihx, chainRun,
      List.map_cons]

/-- When the pieces before f all succeed and f fails, the conditional-AND loop
stops right after f: it returns exactly the labels of the pieces up to and
including f, overall failure, and the state just after executing f. -/
theorem andLoop_first_failure (env : Env) :
    ∀ (pre : List Str) (f : Str) (post : List Str) (st : State),
      (∀ c ∈ pre ++ f :: post, c ≠ []) →
      (∀ pr ∈ (chainRun env st pre).1, pr.2 = true) →
      (parseAndExecute env (chainRun env st pre).2 f).1.1 = false →
      andLoop (fun a c => parseAndExecute env a c) st (pre ++ f :: post) =
        (((chainRun env st (pre ++ [f])).1).map Prod.fst, false,
         (parseAndExecute env (chainRun env st pre).2 f).2) := by
  intro pre
  induction pre with
  | nil =>
    intro f post st h _ hf
    have hfne : f ≠ [] := h f (by simp)
    simp only [List.nil_append, andLoop, if_neg hfne]
    simp only [chainRun] at hf ⊢
    rw [if_neg (by simp [hf])]
    simp
  | cons c pre' ih =>
    intro f post st h hall hf
    have hc : c ≠ [] := h c (List.mem_cons_self _ _)
    have hsucc : (parseAndExecute env st c).1.1 = true := by
      have := hall ("[".data ++ c ++ "] -> ".data ++ (parseAndExecute env st c).1.2,
        (parseAndExecute env st c).1.1) (by simp [chainRun])
      exact this
    have hall' : ∀ pr ∈ (chainRun env (parseAndExecute env st c).2 pre').1, pr.2 = true :=
      fun pr hpr => hall pr (by simp [chainRun]; right; exact hpr)
    have hf' : (parseAndExecute env (chainRun env (parseAndExecute env st c).2 pre').2 f).1.1
        = false := by
      have hst : (chainRun env st (c :: pre')).2
          = (chainRun env (parseAndExecute env st c).2 pre').2 := by
        simp [chainRun]
      rw [hst] at hf
      exact hf
    have ihx := ih f post (parseAndExecute env st c).2
      (fun p hp => h p (List.mem_cons_of_mem _ hp)) hall' hf'
    simp only [List.cons_append, andLoop, if_neg hc, hsucc, eq_self_iff_true, if_true,
      List.append_eq, ihx, chainRun, List.map_cons]

/- ------------------------------------------------------------------ -/
/- Helper lemmas for kill_process, identifier assignment and the       -/
/- empty-piece skipping of the chain loops.                            -/
/- ------------------------------------------------------------------ -/

theorem lookupA_setStatusA (reg : List (Str × BgEntry)) (k : Str) (s : BgStatus)
    (e : BgEntry) (h : lookupA reg k = some e) :
    lookupA (setStatusA reg k s) k = some { e with status := s } := by
  induction reg with
  | nil => simp [lookupA] at h
  | cons kv rest ih =>
    obtain ⟨k', v⟩ := kv
    by_cases hk : k' = k
    · simp [lookupA, hk] at h
      subst h
      simp [setStatusA, lookupA, hk]
    · simp [lookupA, hk] at h
      simp [setStatusA, lookupA, hk]
      exact ih h

theorem smRun_issued (ops : List SMOp) :
    ∀ st : SMState,
      (∀ n ∈ (smRun st ops).2, st.counter < n)
      ∧ ((smRun st ops).2).Chain' (fun a b => a < b) := by
  induction ops with
  | nil => intro st; simp [smRun]
  | cons op ops ih =>
    intro st
    cases op with
    | create cmd =>
      have h := ih ⟨st.counter + 1, st.keys ++ [mkSessionId (st.counter + 1)]⟩
      constructor
      · intro n hn
        simp only [smRun, smStep, Option.toList, List.cons_append, List.nil_append,
          List.mem_cons] at hn
        rcases hn with rfl | hn
        · omega
        · have := h.1 n hn
          simp at this
          omega
      · simp only [smRun, smStep, Option.toList, List.cons_append, List.nil_append]
        refine List.chain'_cons'.mpr ⟨?_, h.2⟩
        intro b hb
        have hmem : b ∈ (smRun ⟨st.counter + 1,
            st.keys ++ [mkSessionId (st.counter + 1)]⟩ ops).2 :=
          List.mem_of_mem_head? hb
        have := h.1 b hmem
        simp at this
        omega
    | close id =>
      by_cases hm : id ∈ st.keys
      · have h := ih ⟨st.counter, st.keys.erase id⟩
        constructor
        · intro n hn
          simp only [smRun, smStep, if_pos hm, Option.toList, List.nil_append] at hn
          have := h.1 n hn
          simpa using this
        · simp only [smRun, smStep, if_pos hm, Option.toList, List.nil_append]
          exact h.2
      · have h := ih st
        constructor
        · intro n hn
          simp only [smRun, smStep, if_neg hm, Option.toList, List.nil_append] at hn
          exact h.1 n hn
        · simp only [smRun, smStep, if_neg hm, Option.toList, List.nil_append]
          exact h.2

theorem pmRun_issued (ops : List PMOp) :
    ∀ st : PMState,
      (∀ n ∈ (pmRun st ops).2, st.counter < n)
      ∧ ((pmRun st ops).2).Chain' (fun a b => a < b) := by
  induction ops with
  | nil => intro st; simp [pmRun]
  | cons op ops ih =>
    intro st
    cases op with
    | start cmd ok =>
      cases ok with
      | true =>
        have h := ih ⟨st.counter + 1, st.keys ++ [mkBgId (st.counter + 1)]⟩
        constructor
        · intro n hn
          simp only [pmRun, pmStep, Option.toList, List.cons_append,
            List.nil_append, List.mem_cons] at hn
          rcases hn with rfl | hn
          · omega
          · have := h.1 n hn
            simp at this
            omega
        · simp only [pmRun, pmStep, Option.toList, List.cons_append,
            List.nil_append]
          refine List.chain'_cons'.mpr ⟨?_, h.2⟩
          intro b hb
          have hmem : b ∈ (pmRun ⟨st.counter + 1,
              st.keys ++ [mkBgId (st.counter + 1)]⟩ ops).2 :=
            List.mem_of_mem_head? hb
          have := h.1 b hmem
          simp at this
          omega
      | false =>
        have h := ih ⟨st.counter + 1, st.keys⟩
        constructor
        · intro n hn
          simp only [pmRun, pmStep, Option.toList, List.nil_append] at hn
          have := h.1 n hn
          simp at this
          omega
        · simp only [pmRun, pmStep, Option.toList, List.nil_append]
          exact h.2
    | kill id =>
      have h := ih st
      constructor
      · intro n hn
        simp only [pmRun, pmStep, Option.toList, List.nil_append] at hn
        exact h.1 n hn
      · simp only [pmRun, pmStep, Option.toList, List.nil_append]
        exact h.2

theorem mkSessionId_injective : Function.Injective mkSessionId := by
  intro m n h
  exact natToChars_injective (List.append_cancel_left h)

theorem mkBgId_injective : Function.Injective mkBgId := by
  intro m n h
  exact natToChars_injective (List.append_cancel_left h)

theorem chain_lt_nodup_map (f : Nat → Str) (hf : Function.Injective f)
    (l : List Nat) (h : l.Chain' (fun a b => a < b)) : (l.map f).Nodup := by
  have hp : l.Pairwise (fun a b => a < b) := List.chain'_iff_pairwise.mp h
  have hnd : l.Nodup := hp.nodup
  exact hnd.map hf

theorem seqLoop_filter (exec : State → Str → (Bool × Str) × State) :
    ∀ (pieces : List Str) (st : State),
      seqLoop exec st pieces
        = seqLoop exec st (pieces.filter fun c => decide (c ≠ [])) := by
  intro pieces
  induction pieces with
  | nil => intro st; rfl
  | cons c rest ih =>
    intro st
    by_cases hc : c = []
    · subst hc
      exact ih st
    · simp only [List.filter_cons]
      rw [if_pos (by simp [hc])]
      simp only [seqLoop, if_neg hc]
      rw [ih (exec st c).2]

theorem andLoop_filter (exec : State → Str → (Bool × Str) × State) :
    ∀ (pieces : List Str) (st : State),
      andLoop exec st pieces
        = andLoop exec st (pieces.filter fun c => decide (c ≠ [])) := by
  intro pieces
  induction pieces with
  | nil => intro st; rfl
  | cons c rest ih =>
    intro st
    by_cases hc : c = []
    · subst hc
      exact ih st
    · simp only [List.filter_cons]
      rw [if_pos (by simp [hc])]
      simp only [andLoop, if_neg hc]
      rw [ih (exec st c).2]

theorem orLoop_filter (exec : State → Str → (Bool × Str) × State) :
    ∀ (pieces : List Str) (st : State),
      orLoop exec st pieces
        = orLoop exec st (pieces.filter fun c => decide (c ≠ [])) := by
  intro pieces
  induction pieces with
  | nil => intro st; rfl
  | cons c rest ih =>
    intro st
    by_cases hc : c = []
    · subst hc
      exact ih st
    · simp only [List.filter_cons]
      rw [if_pos (by simp [hc])]
      simp only [orLoop, if_neg hc]
      rw [ih (exec st c).2]

theorem seqLoop_length_filter (exec : State → Str → (Bool × Str) × State) :
    ∀ (pieces : List Str) (st : State),
      ((seqLoop exec st pieces).1).length
        = (pieces.filter fun c => decide (c ≠ [])).length := by
  intro pieces
  induction pieces with
  | nil => intro st; rfl
  | cons c rest ih =>
    intro st
    by_cases hc : c = []
    · subst hc
      exact ih st
    · simp only [List.filter_cons]
      rw [if_pos (by simp [hc])]
      simp only [seqLoop, if_neg hc, List.length_cons]
      rw [ih (exec st c).2]

/- ------------------------------------------------------------------ -/
/- Claim theorems.                                                     -/
/- ------------------------------------------------------------------ -/

/-- C1: for every single command (an expression containing none of the
operators trailing " &", ";", "||", "&&", "|") that runs to normal exit,
execute_command_chain returns success=true iff the exit code is 0, and the
output is the captured stdout trimmed of surrounding whitespace when that
trimmed stdout is non-empty, otherwise the captured stderr trimmed. -/
theorem c1_single_command (env : Env) (st : State) (chain : Str)
    (code : Int) (out err : Str)
    (hbg : " &".data.isSuffixOf (strip chain) = false)
    (hseq : containsSub (";".data) (strip chain) = false)
    (hor : containsSub ("||".data) (strip chain) = false)
    (hand : containsSub ("&&".data) (strip chain) = false)
    (hpipe : containsSub ("|".data) (strip chain) = false)
    (hrun : env.runSingle st.tick (strip chain) = SingleOutcome.completed code out err) :
    ((executeCommandChain env st chain).1.1 = true ↔ code = 0)
    ∧ (executeCommandChain env st chain).1.2
        = (if strip out = [] then strip err else strip out) := by
  have h := parseAndExecute_single env (pushHistory st chain) chain hbg hseq hor hand hpipe
  unfold executeCommandChain
  rw [h]
  have htick : (pushHistory st chain).tick = st.tick := rfl
  simp only [execSingle, htick, hrun]
  constructor
  · simp
  · trivial

/-- Witness for C1: "echo hello" with exit code 0, stdout "hello\n", empty
stderr yields success and the trimmed stdout. -/
theorem c1_single_command_witness :
    ((executeCommandChain envC1 st0 ("echo hello".data)).1.1 = true ↔ (0 : Int) = 0)
    ∧ (executeCommandChain envC1 st0 ("echo hello".data)).1.2
        = (if strip ("hello\n".data) = [] then strip [] else strip ("hello\n".data)) :=
  c1_single_command envC1 st0 ("echo hello".data) 0 ("hello\n".data) []
    (by decide) (by decide) (by decide) (by decide) (by decide) (by decide)

/-- C5 counterexample: a single command exiting with code 1, stdout "out\n"
and stderr "err\n" yields output "out" — the trimmed stdout — not the
captured stderr, refuting the claim that failures report stderr first. -/
theorem c5_counterexample :
    (executeCommandChain envC5 st0 ("somecmd".data)).1 = (false, "out".data)
    ∧ "out".data ≠ "err\n".data ∧ "out".data ≠ strip ("err\n".data) := by
  decide

/-- C5 amended: for every single-command execution whose process exits with a
nonzero status, the result is success=false, and the output is the captured
stdout trimmed, falling back to the trimmed stderr only when the trimmed
stdout is empty (stdout and stderr exchanged with respect to the claim). -/
theorem c5_nonzero_exit (env : Env) (st : State) (chain : Str)
    (code : Int) (out err : Str)
    (hbg : " &".data.isSuffixOf (strip chain) = false)
    (hseq : containsSub (";".data) (strip chain) = false)
    (hor : containsSub ("||".data) (strip chain) = false)
    (hand : containsSub ("&&".data) (strip chain) = false)
    (hpipe : containsSub ("|".data) (strip chain) = false)
    (hrun : env.runSingle st.tick (strip chain) = SingleOutcome.completed code out err)
    (hcode : code ≠ 0) :
    (executeCommandChain env st chain).1
      = (false, if strip out = [] then strip err else strip out) := by
  have h := parseAndExecute_single env (pushHistory st chain) chain hbg hseq hor hand hpipe
  unfold executeCommandChain
  rw [h]
  have htick : (pushHistory st chain).tick = st.tick := rfl
  simp only [execSingle, htick, hrun]
  simp [hcode]

/-- Witness for the amended C5 at a concrete failing command. -/
theorem c5_nonzero_exit_witness :
    (executeCommandChain envC5 st0 ("somecmd".data)).1
      = (false, if strip ("out\n".data) = [] then strip ("err\n".data)
                else strip ("out\n".data)) :=
  c5_nonzero_exit envC5 st0 ("somecmd".data) 1 ("out\n".data) ("err\n".data)
    (by decide) (by decide) (by decide) (by decide) (by decide) (by decide) (by decide)

/-- C2 counterexample: in the pipe "cmda | cmdb" with stage exit codes [0, 1],
last-stage stdout "x\n" and stderr "boom", the chain fails but the output is
the trimmed stdout "x", not the captured stderr "boom" — refuting the claim
that a failing pipe reports the final stage's stderr. -/
theorem c2_counterexample :
    (executeCommandChain envC2 st0 ("cmda | cmdb".data)).1 = (false, "x".data)
    ∧ "x".data ≠ "boom".data ∧ "x".data ≠ strip ("boom".data) := by
  decide

/-- C2 amended: for every pipe expression (contains "|" but no trailing " &",
";", "||", "&&"), execute_command_chain succeeds iff every stage exits with
code 0; the output is the final stage's stdout trimmed when the raw captured
stdout is non-empty, otherwise the final stage's stderr trimmed — the
stdout/stderr selection is independent of success. -/
theorem c2_pipe (env : Env) (st : State) (chain : Str)
    (exits : List Int) (out err : Str)
    (hbg : " &".data.isSuffixOf (strip chain) = false)
    (hseq : containsSub (";".data) (strip chain) = false)
    (hor : containsSub ("||".data) (strip chain) = false)
    (hand : containsSub ("&&".data) (strip chain) = false)
    (hpipe : containsSub ("|".data) (strip chain) = true)
    (hrun : env.runPipe st.tick (pipeStages chain) = PipeOutcome.ran exits out err)
    (hlen : exits.length = (pipeStages chain).length) :
    ((executeCommandChain env st chain).1.1 = true ↔ ∀ e ∈ exits, e = 0)
    ∧ (executeCommandChain env st chain).1.2
        = (if out = [] then strip err else strip out) := by
  have h := parseAndExecute_pipe env (pushHistory st chain) chain hbg hseq hor hand hpipe
  unfold executeCommandChain
  rw [h]
  have htick : (pushHistory st chain).tick = st.tick := rfl
  simp only [execPipe, htick, hrun]
  constructor
  · simp [List.all_eq_true]
  · trivial

/-- Witness for the amended C2: a two-stage pipe with exit codes [0, 0] and
stdout "HI\n" succeeds with the trimmed stdout. -/
theorem c2_pipe_witness :
    ((executeCommandChain envC2w st0 ("echo hi | tr a-z A-Z".data)).1.1 = true
      ↔ ∀ e ∈ ([0, 0] : List Int), e = 0)
    ∧ (executeCommandChain envC2w st0 ("echo hi | tr a-z A-Z".data)).1.2
        = (if ("HI\n".data : Str) = [] then strip [] else strip ("HI\n".data)) :=
  c2_pipe envC2w st0 ("echo hi | tr a-z A-Z".data) [0, 0] ("HI\n".data) []
    (by decide) (by decide) (by decide) (by decide) (by decide) (by decide) (by decide)

/-- C3: a sequential chain (";" present, no trailing " &") whose stripped
pieces are all non-empty executes every sub-command left to right regardless
of outcomes (the result equals the reference runner chainRun, which runs them
all in order), always returns success=true, and its output is the
newline-join of exactly N labelled segments — the i-th being
"[" ++ i-th sub-command ++ "] -> " followed by that sub-command's output. -/
theorem c3_sequential (env : Env) (st : State) (chain : Str)
    (hbg : " &".data.isSuffixOf (strip chain) = false)
    (hseq : containsSub (";".data) (strip chain) = true)
    (hne : ∀ c ∈ seqPieces chain, c ≠ []) :
    executeCommandChain env st chain
      = ((true, joinNL (((chainRun env (pushHistory st chain) (seqPieces chain)).1).map
            Prod.fst)),
         (chainRun env (pushHistory st chain) (seqPieces chain)).2)
    ∧ ((chainRun env (pushHistory st chain) (seqPieces chain)).1).length
        = (seqPieces chain).length
    ∧ ∀ (i : Nat)
        (h1 : i < ((chainRun env (pushHistory st chain) (seqPieces chain)).1).length)
        (h2 : i < (seqPieces chain).length),
        ∃ o, (((chainRun env (pushHistory st chain) (seqPieces chain)).1).get ⟨i, h1⟩).1
          = "[".data ++ ((seqPieces chain).get ⟨i, h2⟩) ++ "] -> ".data ++ o := by
  refine ⟨?_, chainRun_length env (seqPieces chain) (pushHistory st chain),
    fun i h1 h2 => chainRun_get env (seqPieces chain) (pushHistory st chain) i h1 h2⟩
  have h := parseAndExecute_seq env (pushHistory st chain) chain hbg hseq
  unfold executeCommandChain
  rw [h, seqLoop_eq_chainRun env (seqPieces chain) (pushHistory st chain) hne]

/-- Witness for C3: "echo a; echo b" yields success with the two labelled
segments in order. -/
theorem c3_sequential_witness :
    executeCommandChain envSeq st0 ("echo a; echo b".data)
      = ((true, joinNL (((chainRun envSeq (pushHistory st0 ("echo a; echo b".data))
            (seqPieces ("echo a; echo b".data))).1).map Prod.fst)),
         (chainRun envSeq (pushHistory st0 ("echo a; echo b".data))
            (seqPieces ("echo a; echo b".data))).2)
    ∧ ((chainRun envSeq (pushHistory st0 ("echo a; echo b".data))
          (seqPieces ("echo a; echo b".data))).1).length
        = (seqPieces ("echo a; echo b".data)).length
    ∧ ∀ (i : Nat)
        (h1 : i < ((chainRun envSeq (pushHistory st0 ("echo a; echo b".data))
          (seqPieces ("echo a; echo b".data))).1).length)
        (h2 : i < (seqPieces ("echo a; echo b".data)).length),
        ∃ o, (((chainRun envSeq (pushHistory st0 ("echo a; echo b".data))
            (seqPieces ("echo a; echo b".data))).1).get ⟨i, h1⟩).1
          = "[".data ++ ((seqPieces ("echo a; echo b".data)).get ⟨i, h2⟩)
            ++ "] -> ".data ++ o :=
  c3_sequential envSeq st0 ("echo a; echo b".data) (by decide) (by decide) (by decide)

/-- C4: a conditional-AND chain ("&&" present; no trailing " &", ";", "||")
with non-empty stripped pieces executes left to right and stops at the first
failing sub-command. If every sub-command succeeds the result is success=true
with all labelled outputs; if the pieces split as pre ++ f :: post where pre
all succeed and f fails, the result is success=false, carries the
"(Chain stopped due to failure)" marker, and contains exactly the
pre.length + 1 labelled segments of pre and f — the sub-commands of post are
never executed. -/
theorem c4_conditional_and (env : Env) (st : State) (chain : Str)
    (hbg : " &".data.isSuffixOf (strip chain) = false)
    (hseq : containsSub (";".data) (strip chain) = false)
    (hor : containsSub ("||".data) (strip chain) = false)
    (hand : containsSub ("&&".data) (strip chain) = true)
    (hne : ∀ c ∈ andPieces chain, c ≠ []) :
    ((∀ pr ∈ (chainRun env (pushHistory st chain) (andPieces chain)).1, pr.2 = true) →
      executeCommandChain env st chain
        = ((true, joinNL (((chainRun env (pushHistory st chain) (andPieces chain)).1).map
              Prod.fst)),
           (chainRun env (pushHistory st chain) (andPieces chain)).2))
    ∧ (∀ pre f post, andPieces chain = pre ++ f :: post →
        (∀ pr ∈ (chainRun env (pushHistory st chain) pre).1, pr.2 = true) →
        (parseAndExecute env (chainRun env (pushHistory st chain) pre).2 f).1.1 = false →
        executeCommandChain env st chain
          = ((false,
              joinNL (((chainRun env (pushHistory st chain) (pre ++ [f])).1).map Prod.fst)
                ++ "\n(Chain stopped due to failure)".data),
             (parseAndExecute env (chainRun env (pushHistory st chain) pre).2 f).2)
        ∧ ((chainRun env (pushHistory st chain) (pre ++ [f])).1).length
            = pre.length + 1) := by
  have hpe := parseAndExecute_and env (pushHistory st chain) chain hbg hseq hor hand
  constructor
  · intro hall
    have hloop := andLoop_all_success env (andPieces chain) (pushHistory st chain) hne hall
    unfold executeCommandChain
    rw [hpe]
    simp only [hloop, eq_self_iff_true, if_true]
  · intro pre f post hsplitEq hall hf
    constructor
    · have hne' : ∀ c ∈ pre ++ f :: post, c ≠ [] := by rw [← hsplitEq]; exact hne
      have hloop := andLoop_first_failure env pre f post (pushHistory st chain) hne' hall hf
      unfold executeCommandChain
      rw [hpe]
      rw [hsplitEq, hloop]
      simp
    · have := chainRun_length env (pre ++ [f]) (pushHistory st chain)
      simp at this
      simp [this]

/-- Witness for C4: "echo a && false && echo b" (pieces [echo a, false,
echo b], where "echo a" succeeds and "false" fails) stops after the failing
"false": failure with the marker and exactly 1 + 1 labelled segments; "echo b"
is never executed. -/
theorem c4_conditional_and_witness :
    executeCommandChain envSeq st0 ("echo a && false && echo b".data)
      = ((false,
          joinNL (((chainRun envSeq (pushHistory st0 ("echo a && false && echo b".data))
              (["echo a".data] ++ ["false".data])).1).map Prod.fst)
            ++ "\n(Chain stopped due to failure)".data),
         (parseAndExecute envSeq (chainRun envSeq
            (pushHistory st0 ("echo a && false && echo b".data)) ["echo a".data]).2
            ("false".data)).2)
    ∧ ((chainRun envSeq (pushHistory st0 ("echo a && false && echo b".data))
          (["echo a".data] ++ ["false".data])).1).length
        = List.length ["echo a".data] + 1 :=
  (c4_conditional_and envSeq st0 ("echo a && false && echo b".data)
    (by decide) (by decide) (by decide) (by decide) (by decide)).2
    ["echo a".data] ("false".data) ["echo b".data] (by decide) (by decide) (by decide)

/-- C6 counterexample: killing a process whose entry is already in the
terminal status completed returns true but is not a no-op — the registry
entry's status is overwritten with killed, so the entry does not stay
unchanged as the claim asserts. -/
theorem c6_counterexample :
    (killProcess regC6 ("bg_1".data) false false).1 = true
    ∧ (killProcess regC6 ("bg_1".data) false false).2.1 ≠ regC6
    ∧ (killProcess regC6 ("bg_1".data) false false).2.2 = [] := by
  decide

/-- C6 amended: kill(id) on an unknown id returns false without touching the
registry or sending signals. On a known id it returns true and overwrites the
entry's status with killed (keeping its command); the escalation signals are
sent only if the process is still running at entry: a graceful terminate,
followed by a force kill only when the process is still alive after the
1-second wait — in particular a process already in a terminal status receives
no signal, but its registry status is still rewritten to killed (not left
unchanged). -/
theorem c6_kill_process (reg : List (Str × BgEntry)) (pid : Str)
    (aliveNow stillAliveAfterWait : Bool) :
    (lookupA reg pid = none →
      killProcess reg pid aliveNow stillAliveAfterWait = (false, reg, []))
    ∧ (∀ e, lookupA reg pid = some e →
        (killProcess reg pid aliveNow stillAliveAfterWait).1 = true
        ∧ lookupA (killProcess reg pid aliveNow stillAliveAfterWait).2.1 pid
            = some { e with status := BgStatus.killed }
        ∧ (killProcess reg pid aliveNow stillAliveAfterWait).2.2
            = (if aliveNow then
                 KSig.terminate :: (if stillAliveAfterWait then [KSig.forceKill] else [])
               else [])) := by
  constructor
  · intro h
    simp [killProcess, h]
  · intro e h
    simp only [killProcess, h]
    exact ⟨trivial, lookupA_setStatusA reg pid BgStatus.killed e h, trivial⟩

/-- Witness for the amended C6: killing the running "bg_1" returns true,
rewrites its status to killed, and escalates terminate then force kill. -/
theorem c6_kill_process_witness :
    (killProcess regC6run ("bg_1".data) true true).1 = true
    ∧ lookupA (killProcess regC6run ("bg_1".data) true true).2.1 ("bg_1".data)
        = some { command := "x".data, status := BgStatus.killed }
    ∧ (killProcess regC6run ("bg_1".data) true true).2.2
        = (if true then KSig.terminate :: (if true then [KSig.forceKill] else []) else []) :=
  (c6_kill_process regC6run ("bg_1".data) true true).2
    ⟨"x".data, BgStatus.running⟩ (by decide)

/-- C7: over every sequence of create/close operations on a session manager
and every sequence of start/kill operations on a process manager (identifiers
auto-assigned), the counters at which identifiers are assigned are strictly
increasing in issue order, and the assigned identifier strings are pairwise
distinct — identifiers are never reused within the manager's lifetime, even
after close removes an entry (close and kill never touch the counter). -/
theorem c7_identifier_freshness (sops : List SMOp) (pops : List PMOp) :
    ((smRun smInit sops).2).Chain' (fun a b => a < b)
    ∧ (((smRun smInit sops).2).map mkSessionId).Nodup
    ∧ ((pmRun pmInit pops).2).Chain' (fun a b => a < b)
    ∧ (((pmRun pmInit pops).2).map mkBgId).Nodup := by
  have hs := smRun_issued sops smInit
  have hp := pmRun_issued pops pmInit
  exact ⟨hs.2, chain_lt_nodup_map mkSessionId mkSessionId_injective _ hs.2,
         hp.2, chain_lt_nodup_map mkBgId mkBgId_injective _ hp.2⟩

/-- C8: the code computes (now - last_activity).seconds — the seconds
component of the timedelta, which wraps every 86400 seconds — instead of the
total elapsed seconds. A session idle for 86410 seconds (1 day + 10 s) with
threshold 1800 s has idle time exceeding the threshold, yet
cleanup_inactive_sessions keeps it and returns 0 evicted, contradicting the
claim (and the spec's intent of evicting every session idle longer than the
threshold). -/
theorem c8_cleanup_seconds_component_bug :
    cleanupInactiveSessions 86410 1800 [("interactive_1".data, 0)]
      = (0, [("interactive_1".data, 0)])
    ∧ 1800 < 86410 - 0 := by
  decide

/-- C9 counterexample: executing "sleep 5 &" registers the background process
under the identifier bg_1, but the returned output is the message
"Started background process: bg_1", not the bare identifier "bg_1" that the
claim asserts. -/
theorem c9_counterexample :
    (executeCommandChain envBg st0 ("sleep 5 &".data)).1
      = (true, "Started background process: bg_1".data)
    ∧ (executeCommandChain envBg st0 ("sleep 5 &".data)).2.registry
      = [("bg_1".data, ⟨"sleep 5".data, BgStatus.running⟩)]
    ∧ "Started background process: bg_1".data ≠ "bg_1".data := by
  decide

/-- C9 amended: for every expression whose trimmed form ends with " &" and
whose background spawn succeeds, execute_command_chain strips the "&",
registers the remaining command with the Process Manager as a running
background process under the freshly assigned identifier bg_{counter+1}, and
returns success=true immediately with the output
"Started background process: " followed by that identifier (the message
embeds the identifier rather than being the bare identifier). The result is
determined by the spawn alone — no completion of the spawned command is
consulted. -/
theorem c9_background (env : Env) (st : State) (chain : Str)
    (hbg : " &".data.isSuffixOf (strip chain) = true)
    (hspawn : env.spawnBg st.tick (strip (strip chain).dropLast) = none) :
    executeCommandChain env st chain
      = ((true, "Started background process: ".data ++ mkBgId (st.counter + 1)),
         { pushHistory st chain with
             counter := st.counter + 1,
             tick := st.tick + 1,
             registry := updateA st.registry (mkBgId (st.counter + 1))
               ⟨strip (strip chain).dropLast, BgStatus.running⟩ }) := by
  unfold executeCommandChain
  rw [parseAndExecute_bg env (pushHistory st chain) chain hbg]
  have htick : (pushHistory st chain).tick = st.tick := rfl
  simp only [execBackground, startBackgroundProcess, htick, hspawn]
  rfl

/-- Witness for the amended C9 at "sleep 5 &". -/
theorem c9_background_witness :
    executeCommandChain envBg st0 ("sleep 5 &".data)
      = ((true, "Started background process: ".data ++ mkBgId (st0.counter + 1)),
         { pushHistory st0 ("sleep 5 &".data) with
             counter := st0.counter + 1,
             tick := st0.tick + 1,
             registry := updateA st0.registry (mkBgId (st0.counter + 1))
               ⟨strip (strip ("sleep 5 &".data)).dropLast, BgStatus.running⟩ }) :=
  c9_background envBg st0 ("sleep 5 &".data) (by decide) (by decide)

/-- C10 counterexample: in "false && && echo hi" the doubled operator yields
the pieces [false, (empty), echo hi] with 2 non-empty sub-expressions, but the
chain stops at the failing "false", so exactly 1 labelled segment appears —
the segment count does not equal the number of non-empty sub-expressions. -/
theorem c10_counterexample :
    (executeCommandChain envSeq st0 ("false && && echo hi".data)).1
      = (false, "[false] -> err\n(Chain stopped due to failure)".data)
    ∧ (andLoop (fun a c => parseAndExecute envSeq a c)
        (pushHistory st0 ("false && && echo hi".data))
        (andPieces ("false && && echo hi".data))).1.length = 1
    ∧ ((andPieces ("false && && echo hi".data)).filter
        fun c => decide (c ≠ [])).length = 2 := by
  decide

/-- C10 amended: empty sub-expressions produced by splitting on ";", "&&" or
"||" are silently skipped: each of the three chain loops computes exactly the
same result on the pieces as on the pieces with empty entries removed — they
are never executed, contribute no labelled segment, and do not affect the
success value. For sequential chains (which never stop early) the segment
count equals the number of non-empty sub-expressions; AND/OR chains may stop
early, so their segment count can be smaller. -/
theorem c10_empty_subexpressions (exec : State → Str → (Bool × Str) × State)
    (st : State) (pieces : List Str) :
    seqLoop exec st pieces
      = seqLoop exec st (pieces.filter fun c => decide (c ≠ []))
    ∧ andLoop exec st pieces
      = andLoop exec st (pieces.filter fun c => decide (c ≠ []))
    ∧ orLoop exec st pieces
      = orLoop exec st (pieces.filter fun c => decide (c ≠ []))
    ∧ ((seqLoop exec st pieces).1).length
      = (pieces.filter fun c => decide (c ≠ [])).length :=
  ⟨seqLoop_filter exec pieces st, andLoop_filter exec pieces st,
   orLoop_filter exec pieces st, seqLoop_length_filter exec pieces st⟩

end SmartCLI
